import Mathlib

/-!
Verification of the taskcluster automation layer of mozilla/application-services.

Shallow embedding of:
- `taskcluster/app_services_taskgraph/transforms/deps_complete.py`
  (`adjust_dependencies`, `adjust_dependencies_child_job`)
- `taskcluster/app_services_taskgraph/transforms/__init__.py` and
  `taskcluster/app_services_taskgraph/loader/__init__.py` (`component_grouping`)
- `taskcluster/app_services_taskgraph/target_tasks.py`
- `automation/taskcluster/decisionlib.py` (`Task.find_or_create`, `Task.create`)
-/

/-! ### Dependency chunking (`transforms/deps_complete.py`) -/

/-- A taskgraph job dict, restricted to the keys `adjust_dependencies` touches:
`label`, `soft-dependencies` and `routes`.  `routes := none` models a dict
without a `"routes"` key. -/
structure TGJob where
  label : String
  soft_dependencies : List String
  routes : Option (List String)
deriving DecidableEq, Repr

/-- Label of the `count`-th synthetic chunk child: `"{} - {}".format(label, count)`. -/
def childLabel (base : String) (count : Nat) : String :=
  base ++ " - " ++ toString count

/-- Embedding of `adjust_dependencies_child_job(orig_job, deps, count)`:
deep-copy the job, overwrite `soft-dependencies` and `label`, and
`del job["routes"]`.  When the job has no `"routes"` key the `del`
raises `KeyError`, modelled by `none`. -/
def adjust_dependencies_child_job (orig : TGJob) (deps : List String) (count : Nat) :
    Option TGJob :=
  match orig.routes with
  | none => none
  | some _ =>
    some { label := childLabel orig.label count
           soft_dependencies := deps
           routes := none }

/-- Outcome of the `while len(deps) > MAX_DEPENDENCIES` loop: normal exit,
`KeyError` from the child-job constructor, or fuel exhaustion (the Python
loop has not terminated within the given number of iterations). -/
inductive ChunkOutcome where
  | ok (children : List TGJob) (deps : List String)
  | keyErr
  | fuelOut
deriving DecidableEq, Repr

/-- The chunking loop of `adjust_dependencies`, fuelled.  Each iteration with
`M < deps.length` splits off the first `M` entries into a child job, appends
the child's label to the remaining dependencies, and continues. -/
def chunkLoop (M : Nat) (orig : TGJob) : Nat → List String → Nat → ChunkOutcome
  | 0, deps, _ => if M < deps.length then .fuelOut else .ok [] deps
  | fuel + 1, deps, counter =>
    if M < deps.length then
      match adjust_dependencies_child_job orig (deps.take M) counter with
      | none => .keyErr
      | some child =>
        match chunkLoop M orig fuel (deps.drop M ++ [child.label]) (counter + 1) with
        | .ok children final => .ok (child :: children) final
        | .keyErr => .keyErr
        | .fuelOut => .fuelOut
    else .ok [] deps

/-- Lexicographic comparison of code-point sequences, as Python compares
strings.  `lexLe as bs` is `as <= bs`. -/
def lexLe : List Char → List Char → Bool
  | [], _ => true
  | _ :: _, [] => false
  | a :: as, b :: bs =>
    if a.toNat < b.toNat then true
    else if b.toNat < a.toNat then false
    else lexLe as bs

/-- The order Python's `sorted` uses on strings. -/
def pyLe (a b : String) : Prop := lexLe a.data b.data = true

instance : DecidableRel pyLe := fun a b => by
  unfold pyLe; infer_instance

/-- Python's `sorted` on a list of strings (lexicographic order). -/
def pySorted (l : List String) : List String :=
  List.insertionSort pyLe l

/-- Embedding of `adjust_dependencies(config, jobs)` for a single job:
sort the soft-dependencies, run the chunking loop (the counter starts at 1,
as `itertools.count(1)`), and return the yielded children together with the
rewritten parent job.  `deps.length` fuel suffices whenever `2 ≤ M`
(see `chunkLoop_termination`). -/
def adjust_dependencies (M : Nat) (job : TGJob) : Option (List TGJob × TGJob) :=
  match chunkLoop M job (pySorted job.soft_dependencies).length
      (pySorted job.soft_dependencies) 1 with
  | .ok children final => some (children, { job with soft_dependencies := final })
  | _ => none

/-- A label is transitively required before the parent may start: it is a
direct dependency of the rewritten parent, or a dependency of a chunk child
whose own label is transitively required — i.e. a chunk child the parent
depends on, possibly through a chain of chunk children. -/
inductive Requires (ps : List String) (cs : List TGJob) : String → Prop where
  | direct {d : String} : d ∈ ps → Requires ps cs d
  | via {c : TGJob} {d : String} : c ∈ cs → Requires ps cs c.label →
      d ∈ c.soft_dependencies → Requires ps cs d

/-! ### Component grouping (`transforms/__init__.py` / `loader/__init__.py`) -/

/-- An upstream task as seen by `component_grouping`: its kind and the
`name` of its `buildconfig` attribute (`none` models a task whose
attributes have no `"buildconfig"` key). -/
structure UTask where
  kind : String
  buildconfigName : Option String
deriving DecidableEq, Repr

/-- `groups.setdefault(component, []).append(task)` on an insertion-ordered
association list, mirroring a Python dict. -/
def insertGroup (groups : List (String × List UTask)) (k : String) (t : UTask) :
    List (String × List UTask) :=
  match groups with
  | [] => [(k, [t])]
  | (k', ts) :: rest =>
    if k' = k then (k', ts ++ [t]) :: rest else (k', ts) :: insertGroup rest k t

/-- First loop of `component_grouping`: skip tasks of other kinds, read
`task.attributes["buildconfig"]["name"]` (a `KeyError`, modelled `none`, when
absent), skip the reserved component `"all"`, and group the rest by
component. -/
def buildGroups (kindDeps : List String) :
    List UTask → List (String × List UTask) → Option (List (String × List UTask))
  | [], groups => some groups
  | t :: ts, groups =>
    if t.kind ∈ kindDeps then
      match t.buildconfigName with
      | none => none
      | some component =>
        if component = "all" then buildGroups kindDeps ts groups
        else buildGroups kindDeps ts (insertGroup groups component t)
    else buildGroups kindDeps ts groups

/-- The `tasks_for_all_components` comprehension: every task (of any kind)
whose `buildconfig` name, defaulting to `""`, equals `"all"`. -/
def tasks_for_all_components (tasks : List UTask) : List UTask :=
  tasks.filter (fun t => t.buildconfigName.getD "" == "all")

/-- Embedding of `component_grouping(config, tasks)`: group the
kind-dependency tasks by component, then extend every group with the
applies-to-all tasks.  The returned association list carries the group keys;
the Python transform returns `groups.values()`. -/
def component_grouping (kindDeps : List String) (tasks : List UTask) :
    Option (List (String × List UTask)) :=
  (buildGroups kindDeps tasks []).map
    (List.map (fun g => (g.1, g.2 ++ tasks_for_all_components tasks)))

/-! ### Target task selection (`target_tasks.py`) -/

/-- Attributes of a task in the full task graph that the selection
strategies read: the truthiness of `attributes.get("nightly")` and
`attributes.get("shipping_phase")`. -/
structure TGTask where
  nightly : Bool
  shipping_phase : Option String
deriving DecidableEq, Repr

/-- A full task graph: labels mapped to tasks (`full_task_graph.tasks`). -/
abbrev FullTaskGraph := List (String × TGTask)

/-- Embedding of `filter_out_shipping_phase(task)`:
`attributes.get("nightly") or attributes.get("shipping_phase") in {None, "build"}`. -/
def filter_out_shipping_phase (t : TGTask) : Bool :=
  t.nightly || (t.shipping_phase == none || t.shipping_phase == some "build")

/-- The `"pr-skip"` strategy: always the empty selection. -/
def target_tasks_pr_skip (_g : FullTaskGraph) : List String := []

/-- The `"full"` strategy: return `full_task_graph.tasks`, i.e. every label. -/
def target_tasks_release (g : FullTaskGraph) : List String :=
  g.map Prod.fst

/-- The `"nightly"` strategy.  `priorNightlyFound` is the oracle for the
external `taskcluster.find_task_id` lookup of the
`decision-nightly` index for the head revision: `true` when the lookup
succeeds, `false` when it raises (no prior nightly decision task). -/
def target_tasks_nightly (priorNightlyFound : Bool) (g : FullTaskGraph) : List String :=
  if priorNightlyFound then []
  else (g.filter (fun lt => filter_out_shipping_phase lt.2)).map Prod.fst

/-- Embedding of `filter_release_promotion(full_task_graph,
filtered_for_candidates, shipping_phase)`: keep a label when it is already a
candidate or its task carries the matching `shipping_phase` attribute. -/
def filter_release_promotion (g : FullTaskGraph) (candidates : List String)
    (phase : String) : List String :=
  (g.filter (fun lt => candidates.contains lt.1 || lt.2.shipping_phase == some phase)).map
    Prod.fst

/-- The `"promote"` strategy: no pre-selected candidates. -/
def target_tasks_promote (g : FullTaskGraph) : List String :=
  filter_release_promotion g [] "promote"

/-- The `"ship"` strategy: the `"promote"` selection feeds the candidate set. -/
def target_tasks_ship (g : FullTaskGraph) : List String :=
  filter_release_promotion g (target_tasks_promote g) "ship"

/-! ### Decision tasks (`automation/taskcluster/decisionlib.py`) -/

/-- A `taskcluster.TaskclusterRestFailure`, reduced to its status code. -/
structure TCError where
  status_code : Nat
deriving DecidableEq, Repr

/-- The fields of a `decisionlib.Task` that `find_or_create` and `create`
read or write.  `payloadJson` stands for the JSON serialization of
`self.build_worker_payload()`. -/
structure DLTask where
  worker_type : String
  payloadJson : String
  routes : List String
deriving DecidableEq, Repr

/-- A call of the Queue's `createTask` recorded by `Shared.schedule_task`:
the generated task id and the `routes` of the queue payload. -/
structure ScheduledTask where
  taskId : String
  routes : List String
deriving DecidableEq, Repr

/-- The mutable `Shared` state that `find_or_create` touches:
`found_or_created_indexed_tasks` (a dict, as an association list),
`all_tasks`, the scheduled queue payloads, and a counter feeding
`taskcluster.slugId()`. -/
structure DLShared where
  found_or_created_indexed_tasks : List (String × String)
  all_tasks : List String
  scheduled : List ScheduledTask
  nextSlug : Nat
deriving DecidableEq, Repr

/-- Dict lookup `d.get(k)` on an association list. -/
def lookupD (d : List (String × String)) (k : String) : Option String :=
  match d with
  | [] => none
  | (k', v) :: rest => if k' = k then some v else lookupD rest k

/-- Dict assignment `d[k] = v` on an association list. -/
def setD (d : List (String × String)) (k : String) (v : String) :
    List (String × String) :=
  match d with
  | [] => [(k, v)]
  | (k', v') :: rest => if k' = k then (k, v) :: rest else (k', v') :: setD rest k v

/-- The default index path `"by-task-definition." + sha256(...).hexdigest()`.
`hash` abstracts `hashlib.sha256(json.dumps([worker_type, payload]).encode("utf-8")).hexdigest()`:
a pure function of the worker type and the serialized payload. -/
def default_index_path (hash : String → String → String) (t : DLTask) : String :=
  "by-task-definition." ++ hash t.worker_type t.payloadJson

/-- The `index_path` argument after the `if not index_path:` default:
`None` (here `none`) and the empty string are both falsy in Python. -/
def effective_index_path (hash : String → String → String) (t : DLTask)
    (ip? : Option String) : String :=
  match ip? with
  | none => default_index_path hash t
  | some p => if p.isEmpty then default_index_path hash t else p

/-- The full index path `"%s.%s" % (CONFIG.index_prefix, index_path)`;
`indexPre` stands for `CONFIG.index_prefix`. -/
def full_index_path (indexPre : String) (hash : String → String → String)
    (t : DLTask) (ip? : Option String) : String :=
  indexPre ++ "." ++ effective_index_path hash t ip?

/-- Embedding of `Task.create()`: draw a fresh slug id (`slug` abstracts
`taskcluster.slugId()`, fed by the counter), schedule the queue payload
(whose routes are `self.routes + CONFIG.routes_for_all_subtasks`, the
latter abstracted by `cfgRoutes`), append the id to `all_tasks`, and
return the id. -/
def DLTask.create (cfgRoutes : List String) (slug : Nat → String) (t : DLTask)
    (st : DLShared) : String × DLShared :=
  let task_id := slug st.nextSlug
  (task_id,
    { st with
      nextSlug := st.nextSlug + 1
      all_tasks := st.all_tasks ++ [task_id]
      scheduled := st.scheduled ++ [{ taskId := task_id, routes := t.routes ++ cfgRoutes }] })

/-- Embedding of `Task.find_or_create(index_path)`.  `oracle` abstracts
`SHARED.index_service.findTask`: `.ok id` is a successful lookup returning
`{"taskId": id}`, `.error e` a `TaskclusterRestFailure` with status
`e.status_code`.  The result carries the returned task id (or the
propagated failure), the task object (whose `routes` the 404 branch
mutates), and the updated shared state. -/
def find_or_create (indexPre : String) (cfgRoutes : List String)
    (hash : String → String → String) (slug : Nat → String)
    (oracle : String → Except TCError String)
    (t : DLTask) (ip? : Option String) (st : DLShared) :
    Except TCError String × DLTask × DLShared :=
  let index_path := full_index_path indexPre hash t ip?
  match lookupD st.found_or_created_indexed_tasks index_path with
  | some task_id => (.ok task_id, t, st)
  | none =>
    match oracle index_path with
    | .ok task_id =>
      (.ok task_id, t,
        { st with
          all_tasks := st.all_tasks ++ [task_id]
          found_or_created_indexed_tasks :=
            setD st.found_or_created_indexed_tasks index_path task_id })
    | .error e =>
      if e.status_code ≠ 404 then (.error e, t, st)
      else
        let t' := { t with routes := t.routes ++ ["index." ++ index_path] }
        let (task_id, st') := DLTask.create cfgRoutes slug t' st
        (.ok task_id, t',
          { st' with
            found_or_created_indexed_tasks :=
              setD st'.found_or_created_indexed_tasks index_path task_id })

/-! ### Concrete instances used by counterexamples and witnesses -/

/-- A `deps-complete` job with 37 soft-dependencies named `"10"` … `"46"`
(already in lexicographic order) and an alert route entry. -/
def job37 : TGJob :=
  { label := "deps-complete"
    soft_dependencies := (List.range 37).map (fun i => toString (10 + i))
    routes := some ["notify.email.a.on-failed"] }

/-- The chunk children the code produces for `job37` with a maximum of 15. -/
def children37 : List TGJob :=
  [{ label := "deps-complete - 1"
     soft_dependencies :=
       ["10", "11", "12", "13", "14", "15", "16", "17", "18", "19", "20", "21",
        "22", "23", "24"]
     routes := none },
   { label := "deps-complete - 2"
     soft_dependencies :=
       ["25", "26", "27", "28", "29", "30", "31", "32", "33", "34", "35", "36",
        "37", "38", "39"]
     routes := none }]

/-- The rewritten parent the code produces for `job37` with a maximum of 15:
the 7 leftover dependencies plus the two chunk-child labels. -/
def parent37 : TGJob :=
  { label := "deps-complete"
    soft_dependencies :=
      ["40", "41", "42", "43", "44", "45", "46", "deps-complete - 1",
       "deps-complete - 2"]
    routes := some ["notify.email.a.on-failed"] }

/-- A small job for witness instantiations of the chunking theorems. -/
def jobW : TGJob :=
  { label := "J", soft_dependencies := ["b", "a", "c"], routes := some [] }

/-- The single chunk child the code produces for `jobW` with a maximum of 2. -/
def childrenW : List TGJob :=
  [{ label := "J - 1", soft_dependencies := ["a", "b"], routes := none }]

/-- The rewritten parent the code produces for `jobW` with a maximum of 2. -/
def parentW : TGJob :=
  { label := "J", soft_dependencies := ["c", "J - 1"], routes := some [] }

/-- Upstream tasks with grouping keys A, A, B, plus one applies-to-all task. -/
def taskA1 : UTask := { kind := "module-build", buildconfigName := some "A" }

def taskA2 : UTask := { kind := "module-build", buildconfigName := some "A" }

def taskB : UTask := { kind := "module-build", buildconfigName := some "B" }

def taskAll : UTask := { kind := "module-build", buildconfigName := some "all" }

/-- A one-task graph whose only task is tagged for the promote phase. -/
def gPromote : FullTaskGraph :=
  [("t1", { nightly := false, shipping_phase := some "promote" })]

/-- Concrete stand-in for the abstract payload hash in witnesses. -/
def hashW : String → String → String := fun wt p => wt ++ "|" ++ p

/-- Concrete stand-in for `taskcluster.slugId()` in witnesses. -/
def slugW : Nat → String := fun n => "slug-" ++ toString n

/-- A concrete task for the `find_or_create` witnesses. -/
def taskW : DLTask :=
  { worker_type := "github-worker", payloadJson := "p1", routes := [] }

/-- Fresh shared state: empty cache, no scheduled tasks. -/
def stEmpty : DLShared :=
  { found_or_created_indexed_tasks := [], all_tasks := [], scheduled := [], nextSlug := 0 }

/-- Shared state whose cache already holds `taskW`'s index path. -/
def stHit : DLShared :=
  { found_or_created_indexed_tasks :=
      [("pfx.by-task-definition.github-worker|p1", "tid-cached")]
    all_tasks := ["tid-cached"]
    scheduled := []
    nextSlug := 1 }

/-- An index service that finds every path. -/
def oracleHit : String → Except TCError String := fun _ => .ok "tid-found"

/-- An index service that reports every path absent (HTTP 404). -/
def oracle404 : String → Except TCError String := fun _ => .error { status_code := 404 }

/-- An index service that fails with an internal error (HTTP 500). -/
def oracle500 : String → Except TCError String := fun _ => .error { status_code := 500 }

/-- Unpacking a successful child-job construction. -/
theorem adjust_dependencies_child_job_eq {orig : TGJob} {deps : List String}
    {count : Nat} {c : TGJob}
    (h : adjust_dependencies_child_job orig deps count = some c) :
    c = { label := childLabel orig.label count
          soft_dependencies := deps
          routes := none } := by
  unfold adjust_dependencies_child_job at h
  cases horig : orig.routes with
  | none => rw [horig] at h; cases h
  | some r => rw [horig] at h; cases h; rfl

/-- The child-job constructor reads only the label and routes of the parent. -/
theorem adjust_dependencies_child_job_congr {o₁ o₂ : TGJob} (hl : o₁.label = o₂.label)
    (hr : o₁.routes = o₂.routes) (deps : List String) (count : Nat) :
    adjust_dependencies_child_job o₁ deps count =
      adjust_dependencies_child_job o₂ deps count := by
  unfold adjust_dependencies_child_job
  rw [hl, hr]

/-- The chunking loop reads only the label and routes of the parent job. -/
theorem chunkLoop_congr (M : Nat) {o₁ o₂ : TGJob} (hl : o₁.label = o₂.label)
    (hr : o₁.routes = o₂.routes) :
    ∀ fuel deps counter, chunkLoop M o₁ fuel deps counter = chunkLoop M o₂ fuel deps counter := by
  intro fuel
  induction fuel with
  | zero => intro deps counter; rfl
  | succ n ih =>
    intro deps counter
    simp only [chunkLoop, adjust_dependencies_child_job_congr hl hr]
    by_cases hlen : M < deps.length
    · simp only [if_pos hlen]
      cases adjust_dependencies_child_job o₂ (deps.take M) counter with
      | none => rfl
      | some child => dsimp only; rw [ih]
    · simp only [if_neg hlen]

/-- Inductive specification of one full run of the chunking loop. -/
theorem chunkLoop_ok_spec (M : Nat) (orig : TGJob) :
    ∀ (fuel : Nat) (deps : List String) (counter : Nat) (children : List TGJob)
      (final : List String),
      chunkLoop M orig fuel deps counter = .ok children final →
      (∀ d ∈ deps, d ∈ final ∨ ∃ c ∈ children, d ∈ c.soft_dependencies) ∧
      (∀ c ∈ children,
        c.label ∈ final ∨ ∃ c' ∈ children, c.label ∈ c'.soft_dependencies) ∧
      (∀ c ∈ children, c.soft_dependencies.length ≤ M ∧ c.routes = none) ∧
      List.Perm (final ++ (children.map TGJob.soft_dependencies).flatten)
        (deps ++ children.map TGJob.label) := by
  intro fuel
  induction fuel with
  | zero =>
    intro deps counter children final h
    simp only [chunkLoop] at h
    split at h
    · cases h
    · cases h
      refine ⟨fun d hd => Or.inl hd, by simp, by simp, by simp⟩
  | succ n ih =>
    intro deps counter children final h
    simp only [chunkLoop] at h
    split at h
    case isFalse hlen =>
      cases h
      refine ⟨fun d hd => Or.inl hd, by simp, by simp, by simp⟩
    case isTrue hlen =>
      cases hcj : adjust_dependencies_child_job orig (deps.take M) counter with
      | none => rw [hcj] at h; cases h
      | some child =>
        rw [hcj] at h
        dsimp only at h
        cases hrec : chunkLoop M orig n (deps.drop M ++ [child.label]) (counter + 1) with
        | keyErr => rw [hrec] at h; cases h
        | fuelOut => rw [hrec] at h; cases h
        | ok ch fin =>
          rw [hrec] at h
          cases h
          obtain ⟨ihmem, ihlink, ihattr, ihperm⟩ := ih _ _ _ _ hrec
          have hchild := adjust_dependencies_child_job_eq hcj
          have hcsoft : child.soft_dependencies = deps.take M := by rw [hchild]
          refine ⟨?_, ?_, ?_, ?_⟩
          · -- coverage
            intro d hd
            rw [← List.take_append_drop M deps] at hd
            rcases List.mem_append.1 hd with hdt | hdd
            · exact Or.inr ⟨child, List.mem_cons_self _ _, by rw [hcsoft]; exact hdt⟩
            · have hmem : d ∈ deps.drop M ++ [child.label] :=
                List.mem_append_left _ hdd
              rcases ihmem d hmem with hfin | ⟨c, hc, hdc⟩
              · exact Or.inl hfin
              · exact Or.inr ⟨c, List.mem_cons_of_mem _ hc, hdc⟩
          · -- every child's label is still depended on
            intro c hc
            rcases List.mem_cons.1 hc with rfl | hc'
            · have hmem : c.label ∈ deps.drop M ++ [c.label] :=
                List.mem_append_right _ (List.mem_singleton.2 rfl)
              rcases ihmem c.label hmem with hfin | ⟨c', hc', hlc⟩
              · exact Or.inl hfin
              · exact Or.inr ⟨c', List.mem_cons_of_mem _ hc', hlc⟩
            · rcases ihlink c hc' with hfin | ⟨c', hc'', hlc⟩
              · exact Or.inl hfin
              · exact Or.inr ⟨c', List.mem_cons_of_mem _ hc'', hlc⟩
          · -- chunk sizes and absent routes
            intro c hc
            rcases List.mem_cons.1 hc with rfl | hc'
            · refine ⟨?_, by rw [hchild]⟩
              rw [hcsoft, List.length_take]
              exact Nat.min_le_left _ _
            · exact ihattr c hc'
          · -- conservation of dependencies
            simp only [List.map_cons, List.flatten_cons]
            have h1 : List.Perm
                (final ++ (child.soft_dependencies ++ (ch.map TGJob.soft_dependencies).flatten))
                (child.soft_dependencies ++ (final ++ (ch.map TGJob.soft_dependencies).flatten)) := by
              rw [← List.append_assoc, ← List.append_assoc]
              exact List.Perm.append_right _ List.perm_append_comm
            have h2 := List.Perm.append_left child.soft_dependencies ihperm
            refine (h1.trans h2).trans ?_
            have heq : child.soft_dependencies ++
                ((deps.drop M ++ [child.label]) ++ ch.map TGJob.label)
                = deps ++ (child.label :: ch.map TGJob.label) := by
              rw [hcsoft, List.append_assoc (deps.drop M), ← List.append_assoc (deps.take M),
                List.take_append_drop, List.singleton_append]
            rw [heq]

/-- The lexicographic comparison is total. -/
theorem lexLe_total : ∀ as bs : List Char, lexLe as bs = true ∨ lexLe bs as = true := by
  intro as
  induction as with
  | nil => intro bs; exact Or.inl rfl
  | cons a as ih =>
    intro bs
    cases bs with
    | nil => exact Or.inr rfl
    | cons b bs =>
      simp only [lexLe]
      rcases Nat.lt_trichotomy a.toNat b.toNat with h | h | h
      · left; rw [if_pos h]
      · rw [if_neg (by omega), if_neg (by omega), if_neg (by omega), if_neg (by omega)]
        exact ih bs
      · right; rw [if_pos h]

/-- The lexicographic comparison is transitive. -/
theorem lexLe_trans : ∀ as bs cs : List Char,
    lexLe as bs = true → lexLe bs cs = true → lexLe as cs = true := by
  intro as
  induction as with
  | nil => intro bs cs _ _; rfl
  | cons a as ih =>
    intro bs cs h₁ h₂
    cases bs with
    | nil => simp [lexLe] at h₁
    | cons b bs =>
      cases cs with
      | nil => simp [lexLe] at h₂
      | cons c cs =>
        simp only [lexLe] at h₁ h₂ ⊢
        rcases Nat.lt_trichotomy a.toNat b.toNat with hab | hab | hab
        · rcases Nat.lt_trichotomy b.toNat c.toNat with hbc | hbc | hbc
          · rw [if_pos (by omega)]
          · rw [if_pos (by omega)]
          · rw [if_pos hbc, if_neg (by omega)] at h₂
            simp at h₂
        · rcases Nat.lt_trichotomy b.toNat c.toNat with hbc | hbc | hbc
          · rw [if_pos (by omega)]
          · rw [if_neg (by omega), if_neg (by omega)]
            rw [if_neg (by omega), if_neg (by omega)] at h₁
            rw [if_neg (by omega), if_neg (by omega)] at h₂
            exact ih bs cs h₁ h₂
          · rw [if_pos hbc, if_neg (by omega)] at h₂
            simp at h₂
        · rw [if_pos hab, if_neg (by omega)] at h₁
          simp at h₁

/-- The lexicographic comparison is antisymmetric. -/
theorem lexLe_antisymm : ∀ as bs : List Char,
    lexLe as bs = true → lexLe bs as = true → as = bs := by
  intro as
  induction as with
  | nil =>
    intro bs _ h₂
    cases bs with
    | nil => rfl
    | cons b bs => simp [lexLe] at h₂
  | cons a as ih =>
    intro bs h₁ h₂
    cases bs with
    | nil => simp [lexLe] at h₁
    | cons b bs =>
      simp only [lexLe] at h₁ h₂
      rcases Nat.lt_trichotomy a.toNat b.toNat with hab | hab | hab
      · rw [if_pos hab, if_neg (by omega)] at h₂; simp at h₂
      · rw [if_neg (by omega), if_neg (by omega)] at h₁ h₂
        have hv : a = b := Char.eq_of_val_eq (UInt32.ext hab)
        rw [hv, ih bs h₁ h₂]
      · rw [if_pos hab, if_neg (by omega)] at h₁; simp at h₁

/-- Sorting is a permutation. -/
theorem pySorted_perm (l : List String) : List.Perm (pySorted l) l :=
  List.perm_insertionSort _ _

/-- Sorting sorts. -/
theorem pySorted_sorted (l : List String) : List.Sorted pyLe (pySorted l) := by
  haveI : IsTotal String pyLe := ⟨fun a b => lexLe_total a.data b.data⟩
  haveI : IsTrans String pyLe := ⟨fun a b c => lexLe_trans a.data b.data c.data⟩
  exact List.sorted_insertionSort _ _

/-- Two lists with the same elements sort to the same list: the chunking
input is deterministic in the dependency set. -/
theorem pySorted_eq_of_perm {l₁ l₂ : List String} (h : List.Perm l₁ l₂) :
    pySorted l₁ = pySorted l₂ := by
  haveI : IsAntisymm String pyLe :=
    ⟨fun a b h₁ h₂ => congrArg String.mk (lexLe_antisymm a.data b.data h₁ h₂)⟩
  exact List.eq_of_perm_of_sorted
    ((pySorted_perm l₁).trans (h.trans (pySorted_perm l₂).symm))
    (pySorted_sorted l₁) (pySorted_sorted l₂)

/-- Transitive requirement is monotone in the set of chunk children. -/
theorem Requires.mono {ps : List String} {cs cs' : List TGJob} {d : String}
    (h : Requires ps cs d) (hsub : ∀ c ∈ cs, c ∈ cs') : Requires ps cs' d := by
  induction h with
  | direct hd => exact .direct hd
  | via hc _ hd ih => exact .via (hsub _ hc) ih hd

/-- Every dependency on the working list of the chunking loop is
transitively required by the finished parent: directly, or through the
chain of chunk children the loop creates (each child label is pushed back
onto the working list, so it is reachable from where the loop ends). -/
theorem chunkLoop_requires (M : Nat) (orig : TGJob) :
    ∀ (fuel : Nat) (deps : List String) (counter : Nat) (children : List TGJob)
      (final : List String),
      chunkLoop M orig fuel deps counter = .ok children final →
      ∀ d ∈ deps, Requires final children d := by
  intro fuel
  induction fuel with
  | zero =>
    intro deps counter children final h d hd
    simp only [chunkLoop] at h
    split at h
    · cases h
    · cases h
      exact .direct hd
  | succ n ih =>
    intro deps counter children final h d hd
    simp only [chunkLoop] at h
    split at h
    case isFalse hlen =>
      cases h
      exact .direct hd
    case isTrue hlen =>
      cases hcj : adjust_dependencies_child_job orig (deps.take M) counter with
      | none => rw [hcj] at h; cases h
      | some child =>
        rw [hcj] at h
        dsimp only at h
        cases hrec : chunkLoop M orig n (deps.drop M ++ [child.label]) (counter + 1) with
        | keyErr => rw [hrec] at h; cases h
        | fuelOut => rw [hrec] at h; cases h
        | ok ch fin =>
          rw [hrec] at h
          cases h
          have hchild := adjust_dependencies_child_job_eq hcj
          have hcsoft : child.soft_dependencies = deps.take M := by rw [hchild]
          have hsub : ∀ c ∈ ch, c ∈ child :: ch := fun c hc => List.mem_cons_of_mem _ hc
          have hlab : Requires final (child :: ch) child.label :=
            (ih _ _ _ _ hrec child.label
              (List.mem_append_right _ (List.mem_singleton.2 rfl))).mono hsub
          rw [← List.take_append_drop M deps] at hd
          rcases List.mem_append.1 hd with hdt | hdd
          · exact .via (List.mem_cons_self _ _) hlab (by rw [hcsoft]; exact hdt)
          · exact (ih _ _ _ _ hrec d (List.mem_append_left _ hdd)).mono hsub

/-- C4: after the chunking transform, every dependency originally listed on
the job is still transitively required before the parent may start
(`Requires`): it is a direct dependency of the rewritten parent, or a
dependency of a chunk child the parent depends on, possibly through a chain
of chunk children.  In one step: it sits on the parent or in some chunk
child, and every chunk child's label is itself a dependency of the parent
or of another chunk child.  Each chunk holds at most `M` dependencies, the
multiset of dependencies is conserved (chunks are disjoint slices: no
dependency is duplicated or lost), and any permutation of the input
dependency list produces the identical chunking, since the loop runs over
the deterministically sorted list. -/

theorem adjust_dependencies_correct (M : Nat) (job : TGJob)
    (children : List TGJob) (parent : TGJob)
    (h : adjust_dependencies M job = some (children, parent)) :
    (∀ d ∈ job.soft_dependencies,
      Requires parent.soft_dependencies children d) ∧
    (∀ d ∈ job.soft_dependencies,
      d ∈ parent.soft_dependencies ∨ ∃ c ∈ children, d ∈ c.soft_dependencies) ∧
    (∀ c ∈ children,
      c.label ∈ parent.soft_dependencies ∨
        ∃ c' ∈ children, c.label ∈ c'.soft_dependencies) ∧
    (∀ c ∈ children, c.soft_dependencies.length ≤ M) ∧
    List.Perm
      (parent.soft_dependencies ++ (children.map TGJob.soft_dependencies).flatten)
      (job.soft_dependencies ++ children.map TGJob.label) ∧
    (∀ deps₂, List.Perm deps₂ job.soft_dependencies →
      adjust_dependencies M { job with soft_dependencies := deps₂ } =
        some (children, parent)) := by
  unfold adjust_dependencies at h
  cases hloop : chunkLoop M job (pySorted job.soft_dependencies).length
      (pySorted job.soft_dependencies) 1 with
  | keyErr => rw [hloop] at h; cases h
  | fuelOut => rw [hloop] at h; cases h
  | ok ch fin =>
    rw [hloop] at h
    cases h
    obtain ⟨hmem, hlink, hattr, hperm⟩ := chunkLoop_ok_spec M job _ _ _ _ _ hloop
    refine ⟨?_, ?_, hlink, fun c hc => (hattr c hc).1, ?_, ?_⟩
    · intro d hd
      exact chunkLoop_requires M job _ _ _ _ _ hloop d
        ((pySorted_perm job.soft_dependencies).mem_iff.2 hd)
    · intro d hd
      exact hmem d ((pySorted_perm job.soft_dependencies).mem_iff.2 hd)
    · exact hperm.trans
        (List.Perm.append_right _ (pySorted_perm job.soft_dependencies))
    · intro deps₂ hp
      have hs : pySorted deps₂ = pySorted job.soft_dependencies :=
        pySorted_eq_of_perm hp
      unfold adjust_dependencies
      simp only [hs]
      rw [@chunkLoop_congr M { job with soft_dependencies := deps₂ } job
        rfl rfl _ _ _]
      rw [hloop]

/-- Witness for `adjust_dependencies_correct` at the concrete job `jobW`. -/
theorem adjust_dependencies_correct_witness :
    (∀ d ∈ jobW.soft_dependencies,
      Requires parentW.soft_dependencies childrenW d) ∧
    (∀ d ∈ jobW.soft_dependencies,
      d ∈ parentW.soft_dependencies ∨ ∃ c ∈ childrenW, d ∈ c.soft_dependencies) ∧
    (∀ c ∈ childrenW,
      c.label ∈ parentW.soft_dependencies ∨
        ∃ c' ∈ childrenW, c.label ∈ c'.soft_dependencies) ∧
    (∀ c ∈ childrenW, c.soft_dependencies.length ≤ 2) ∧
    List.Perm
      (parentW.soft_dependencies ++ (childrenW.map TGJob.soft_dependencies).flatten)
      (jobW.soft_dependencies ++ childrenW.map TGJob.label) ∧
    (∀ deps₂, List.Perm deps₂ jobW.soft_dependencies →
      adjust_dependencies 2 { jobW with soft_dependencies := deps₂ } =
        some (childrenW, parentW)) :=
  adjust_dependencies_correct 2 jobW childrenW parentW (by decide)

/-- C3 counterexample: on a task with 37 dependencies and a chunking maximum
of 15 the dependency chunker yields exactly 2 synthetic children — not 3 —
each holding 15 dependencies (the third slice of 7 is never split off), and
the parent's rewritten dependency set has 9 entries, not 3: the 7 leftover
dependencies plus the 2 child labels.  The union of the chunk children's
dependency sets has only 30 of the original 37 dependencies. -/
theorem adjust_dependencies_37_counterexample :
    adjust_dependencies 15 job37 = some (children37, parent37) ∧
    children37.length = 2 ∧
    children37.map (fun c => c.soft_dependencies.length) = [15, 15] ∧
    parent37.soft_dependencies.length = 9 ∧
    ((children37.map TGJob.soft_dependencies).flatten).length = 30 := by decide

/-- C3 amended: for a task with exactly 37 dependencies and a chunking
maximum of 15, the chunker yields exactly 2 synthetic children holding 15
and 15 of the original dependencies; the remaining 7 stay on the parent,
whose rewritten dependency set has 9 entries (the 7 leftovers plus the 2
child labels); every original dependency is still held by the parent or by
some chunk child, and both child labels are dependencies of the parent. -/
theorem adjust_dependencies_37_amended :
    adjust_dependencies 15 job37 = some (children37, parent37) ∧
    children37.map (fun c => c.soft_dependencies.length) = [15, 15] ∧
    parent37.soft_dependencies.length = 9 ∧
    (∀ d ∈ job37.soft_dependencies,
      d ∈ parent37.soft_dependencies ∨ ∃ c ∈ children37, d ∈ c.soft_dependencies) ∧
    (∀ c ∈ children37, c.label ∈ parent37.soft_dependencies) := by decide

/-- C8: every synthetic chunk child yielded by the dependency chunker has its
routes entry removed entirely, while the parent job keeps its own routes
unchanged. -/
theorem adjust_dependencies_no_child_routes (M : Nat) (job : TGJob)
    (children : List TGJob) (parent : TGJob)
    (h : adjust_dependencies M job = some (children, parent)) :
    (∀ c ∈ children, c.routes = none) ∧ parent.routes = job.routes := by
  unfold adjust_dependencies at h
  cases hloop : chunkLoop M job (pySorted job.soft_dependencies).length
      (pySorted job.soft_dependencies) 1 with
  | keyErr => rw [hloop] at h; cases h
  | fuelOut => rw [hloop] at h; cases h
  | ok ch fin =>
    rw [hloop] at h
    cases h
    obtain ⟨_, _, hattr, _⟩ := chunkLoop_ok_spec M job _ _ _ _ _ hloop
    exact ⟨fun c hc => (hattr c hc).2, rfl⟩

/-- Witness for `adjust_dependencies_no_child_routes` at the job `jobW`. -/
theorem adjust_dependencies_no_child_routes_witness :
    (∀ c ∈ childrenW, c.routes = none) ∧ parentW.routes = jobW.routes :=
  adjust_dependencies_no_child_routes 2 jobW childrenW parentW (by decide)

/-- C9: the chunking loop terminates on every finite dependency list when the
maximum `M` is at least 2 (each iteration removes `M` labels and adds back
one child label, a net decrease, so `deps.length` iterations suffice); if
`M` were 1 and the list had 2 or more entries, the loop would never
terminate (no amount of fuel reaches the exit condition). -/
theorem chunkLoop_termination (M : Nat) (orig : TGJob) (r : List String)
    (hr : orig.routes = some r) :
    (∀ fuel deps counter, 2 ≤ M → deps.length ≤ fuel →
      ∃ children final, chunkLoop M orig fuel deps counter = .ok children final) ∧
    (∀ fuel deps counter, M = 1 → 2 ≤ deps.length →
      chunkLoop M orig fuel deps counter = .fuelOut) := by
  have hcj : ∀ deps counter, adjust_dependencies_child_job orig deps counter =
      some { label := childLabel orig.label counter
             soft_dependencies := deps
             routes := none } := by
    intro deps counter
    unfold adjust_dependencies_child_job
    rw [hr]
  constructor
  · intro fuel
    induction fuel with
    | zero =>
      intro deps counter hM hlen
      refine ⟨[], deps, ?_⟩
      simp only [chunkLoop]
      rw [if_neg (by omega)]
    | succ n ih =>
      intro deps counter hM hlen
      by_cases hlong : M < deps.length
      · obtain ⟨ch, fin, hrec⟩ := ih (deps.drop M ++ [childLabel orig.label counter])
          (counter + 1) hM (by simp [List.length_drop]; omega)
        refine ⟨{ label := childLabel orig.label counter
                  soft_dependencies := deps.take M
                  routes := none } :: ch, fin, ?_⟩
        simp only [chunkLoop]
        rw [if_pos hlong, hcj]
        dsimp only
        rw [hrec]
      · refine ⟨[], deps, ?_⟩
        simp only [chunkLoop]
        rw [if_neg hlong]
  · intro fuel
    induction fuel with
    | zero =>
      intro deps counter hM hlen
      simp only [chunkLoop]
      rw [if_pos (by omega)]
    | succ n ih =>
      intro deps counter hM hlen
      simp only [chunkLoop]
      rw [if_pos (by omega), hcj]
      dsimp only
      rw [ih (deps.drop M ++ [childLabel orig.label counter]) (counter + 1) hM
        (by simp [List.length_drop]; omega)]

/-- Witness for `chunkLoop_termination`: with a maximum of 2 the loop on
three dependencies finishes within 3 iterations; with a maximum of 1 it
never finishes on two dependencies. -/
theorem chunkLoop_termination_witness :
    (∃ children final, chunkLoop 2 jobW 3 ["a", "b", "c"] 1 = .ok children final) ∧
    chunkLoop 1 jobW 5 ["a", "b"] 1 = .fuelOut :=
  ⟨(chunkLoop_termination 2 jobW [] rfl).1 3 ["a", "b", "c"] 1 (by decide) (by decide),
   (chunkLoop_termination 1 jobW [] rfl).2 5 ["a", "b"] 1 rfl (by decide)⟩

/-- Keys produced by a `setdefault`-append either existed already or are the
inserted key. -/
theorem insertGroup_keys {groups : List (String × List UTask)} {k : String}
    {t : UTask} :
    ∀ k', k' ∈ (insertGroup groups k t).map Prod.fst →
      k' ∈ groups.map Prod.fst ∨ k' = k := by
  induction groups with
  | nil =>
    intro k' h
    simp only [insertGroup, List.map_cons, List.map_nil, List.mem_singleton] at h
    exact Or.inr h
  | cons g rest ih =>
    intro k' h
    obtain ⟨kg, ts⟩ := g
    simp only [insertGroup] at h
    by_cases hk : kg = k
    · rw [if_pos hk] at h
      simp only [List.map_cons, List.mem_cons] at h
      rcases h with h1 | h1
      · exact Or.inr (h1.trans hk)
      · exact Or.inl (List.mem_cons_of_mem _ h1)
    · rw [if_neg hk] at h
      simp only [List.map_cons, List.mem_cons] at h
      rcases h with h1 | h1
      · exact Or.inl (by simp only [List.map_cons, List.mem_cons]; exact Or.inl h1)
      · rcases ih k' h1 with hmem | rfl
        · exact Or.inl (by simp only [List.map_cons, List.mem_cons]; exact Or.inr hmem)
        · exact Or.inr rfl

/-- Every key of the groups built by the first loop of `component_grouping`
was already present or is carried by some kind-dependency task whose
component is not the reserved `"all"`. -/
theorem buildGroups_keys (kindDeps : List String) :
    ∀ (tasks : List UTask) (groups gs : List (String × List UTask)),
      buildGroups kindDeps tasks groups = some gs →
      ∀ k ∈ gs.map Prod.fst,
        k ∈ groups.map Prod.fst ∨
          ∃ t ∈ tasks, t.kind ∈ kindDeps ∧ t.buildconfigName = some k ∧ k ≠ "all" := by
  intro tasks
  induction tasks with
  | nil =>
    intro groups gs h k hk
    cases h
    exact Or.inl hk
  | cons t ts ih =>
    intro groups gs h k hk
    simp only [buildGroups] at h
    by_cases hkind : t.kind ∈ kindDeps
    · rw [if_pos hkind] at h
      cases hname : t.buildconfigName with
      | none => rw [hname] at h; cases h
      | some component =>
        rw [hname] at h
        dsimp only at h
        by_cases hall : component = "all"
        · rw [if_pos hall] at h
          rcases ih groups gs h k hk with hmem | ⟨t', ht', hrest⟩
          · exact Or.inl hmem
          · exact Or.inr ⟨t', List.mem_cons_of_mem _ ht', hrest⟩
        · rw [if_neg hall] at h
          rcases ih (insertGroup groups component t) gs h k hk with hmem | ⟨t', ht', hrest⟩
          · rcases insertGroup_keys k hmem with hmem' | rfl
            · exact Or.inl hmem'
            · exact Or.inr ⟨t, List.mem_cons_self _ _, hkind, hname, hall⟩
          · exact Or.inr ⟨t', List.mem_cons_of_mem _ ht', hrest⟩
    · rw [if_neg hkind] at h
      rcases ih groups gs h k hk with hmem | ⟨t', ht', hrest⟩
      · exact Or.inl hmem
      · exact Or.inr ⟨t', List.mem_cons_of_mem _ ht', hrest⟩

/-- C5: grouping upstream tasks with component keys A, A, B plus one task
with the reserved applies-to-all key yields exactly two groups, each holding
its keyed tasks followed by the all-components task; and in general every
emitted group key is carried by at least one kind-dependency task with that
component other than `"all"` — a key with zero such members yields no
group. -/
theorem component_grouping_spec :
    component_grouping ["module-build"] [taskA1, taskA2, taskB, taskAll] =
      some [("A", [taskA1, taskA2, taskAll]), ("B", [taskB, taskAll])] ∧
    (∀ kindDeps tasks gs, component_grouping kindDeps tasks = some gs →
      ∀ g ∈ gs, ∃ t ∈ tasks,
        t.kind ∈ kindDeps ∧ t.buildconfigName = some g.1 ∧ g.1 ≠ "all") := by
  constructor
  · decide
  · intro kindDeps tasks gs h g hg
    unfold component_grouping at h
    cases hb : buildGroups kindDeps tasks [] with
    | none => rw [hb] at h; cases h
    | some gs₀ =>
      rw [hb] at h
      cases h
      obtain ⟨g₀, hg₀, rfl⟩ := List.mem_map.1 hg
      have hkey := buildGroups_keys kindDeps tasks [] gs₀ hb g₀.1
        (List.mem_map.2 ⟨g₀, hg₀, rfl⟩)
      rcases hkey with hmem | ⟨t, ht, hrest⟩
      · simp at hmem
      · exact ⟨t, ht, hrest⟩

/-- Witness for `component_grouping_spec` at the concrete A/A/B/all input. -/
theorem component_grouping_spec_witness :
    ∃ t ∈ [taskA1, taskA2, taskB, taskAll],
      t.kind ∈ ["module-build"] ∧ t.buildconfigName = some "A" ∧ "A" ≠ "all" :=
  component_grouping_spec.2 ["module-build"] [taskA1, taskA2, taskB, taskAll]
    [("A", [taskA1, taskA2, taskAll]), ("B", [taskB, taskAll])] (by decide)
    ("A", [taskA1, taskA2, taskAll]) (by decide)

/-- C6 counterexample: the selection strategy that consults the nightly
decision index (`target_tasks_nightly`) does not return all N labels when no
prior decision is found — on a one-task graph whose task carries
`shipping_phase = "promote"` and no nightly attribute it returns the empty
set — while the unconditional `"full"` strategy (`target_tasks_release`)
never consults the index and returns every label regardless. -/
theorem target_tasks_selection_counterexample :
    List.length gPromote = 1 ∧
    List.map Prod.fst gPromote = ["t1"] ∧
    target_tasks_nightly false gPromote = [] ∧
    target_tasks_release gPromote = ["t1"] := by decide

/-- C6 amended: the `"pr-skip"` strategy always returns the empty label
set; the `"full"` strategy always returns all labels of the graph and never
consults the index; the `"nightly"` strategy returns the empty set when a
prior nightly decision task for the same head revision is found, and
otherwise returns exactly the labels of tasks passing
`filter_out_shipping_phase` (nightly attribute set, or shipping phase absent
or `"build"`). -/
theorem target_tasks_selection (g : FullTaskGraph) :
    target_tasks_pr_skip g = [] ∧
    target_tasks_release g = List.map Prod.fst g ∧
    target_tasks_nightly true g = [] ∧
    (∀ l, l ∈ target_tasks_nightly false g ↔
      ∃ t, (l, t) ∈ g ∧ (t.nightly = true ∨ t.shipping_phase = none ∨
        t.shipping_phase = some "build")) := by
  refine ⟨rfl, rfl, rfl, ?_⟩
  intro l
  show l ∈ (g.filter (fun lt => filter_out_shipping_phase lt.2)).map Prod.fst ↔ _
  rw [List.mem_map]
  constructor
  · rintro ⟨⟨l', t⟩, hmem, rfl⟩
    rw [List.mem_filter] at hmem
    refine ⟨t, hmem.1, ?_⟩
    have hc := hmem.2
    unfold filter_out_shipping_phase at hc
    simp only [Bool.or_eq_true, beq_iff_eq] at hc
    tauto
  · rintro ⟨t, hmem, hcond⟩
    refine ⟨(l, t), List.mem_filter.2 ⟨hmem, ?_⟩, rfl⟩
    unfold filter_out_shipping_phase
    simp only [Bool.or_eq_true, beq_iff_eq]
    tauto

/-- C7: the `"promote"` strategy selects exactly the labels whose task has
`shipping_phase = "promote"`; the `"ship"` strategy selects exactly the
union of the `"promote"` selection and the labels whose task has
`shipping_phase = "ship"`; in particular `"ship"` is a superset of
`"promote"`. -/
theorem promote_ship_selection (g : FullTaskGraph) :
    (∀ l, l ∈ target_tasks_promote g ↔
      ∃ t, (l, t) ∈ g ∧ t.shipping_phase = some "promote") ∧
    (∀ l, l ∈ target_tasks_ship g ↔
      (l ∈ target_tasks_promote g ∨
        ∃ t, (l, t) ∈ g ∧ t.shipping_phase = some "ship")) ∧
    (∀ l, l ∈ target_tasks_promote g → l ∈ target_tasks_ship g) := by
  have hpromote : ∀ l, l ∈ target_tasks_promote g ↔
      ∃ t, (l, t) ∈ g ∧ t.shipping_phase = some "promote" := by
    intro l
    show l ∈ (g.filter _).map Prod.fst ↔ _
    rw [List.mem_map]
    constructor
    · rintro ⟨⟨l', t⟩, hmem, rfl⟩
      rw [List.mem_filter] at hmem
      have hc := hmem.2
      simp only [List.contains_nil, Bool.false_or, beq_iff_eq] at hc
      exact ⟨t, hmem.1, hc⟩
    · rintro ⟨t, hmem, hphase⟩
      refine ⟨(l, t), List.mem_filter.2 ⟨hmem, ?_⟩, rfl⟩
      simp only [List.contains_nil, Bool.false_or, beq_iff_eq]
      exact hphase
  have hship : ∀ l, l ∈ target_tasks_ship g ↔
      (l ∈ target_tasks_promote g ∨
        ∃ t, (l, t) ∈ g ∧ t.shipping_phase = some "ship") := by
    intro l
    show l ∈ (g.filter _).map Prod.fst ↔ _
    rw [List.mem_map]
    constructor
    · rintro ⟨⟨l', t⟩, hmem, rfl⟩
      rw [List.mem_filter] at hmem
      have hc := hmem.2
      simp only [Bool.or_eq_true, beq_iff_eq, List.elem_iff] at hc
      rcases hc with hc | hc
      · exact Or.inl hc
      · exact Or.inr ⟨t, hmem.1, hc⟩
    · rintro (hl | ⟨t, hmem, hphase⟩)
      · rcases (hpromote l).1 hl with ⟨t, hmem, _⟩
        refine ⟨(l, t), List.mem_filter.2 ⟨hmem, ?_⟩, rfl⟩
        simp only [Bool.or_eq_true, List.elem_iff]
        exact Or.inl hl
      · refine ⟨(l, t), List.mem_filter.2 ⟨hmem, ?_⟩, rfl⟩
        simp only [Bool.or_eq_true, beq_iff_eq, List.elem_iff]
        exact Or.inr hphase
  exact ⟨hpromote, hship, fun l hl => (hship l).2 (Or.inl hl)⟩

/-- Dict lookup after assignment at the same key. -/
theorem lookupD_setD (d : List (String × String)) (k v : String) :
    lookupD (setD d k v) k = some v := by
  induction d with
  | nil => simp [setD, lookupD]
  | cons p rest ih =>
    obtain ⟨k', v'⟩ := p
    simp only [setD]
    by_cases hk : k' = k
    · rw [if_pos hk]
      simp [lookupD]
    · rw [if_neg hk]
      simp only [lookupD]
      rw [if_neg hk]
      exact ih

/-- C10: a `find_or_create` call whose computed index path is already in the
process-local `found_or_created_indexed_tasks` map returns the cached task
id and leaves all run state unchanged — nothing is appended to `all_tasks`,
nothing is scheduled, the task is untouched — and the result does not depend
on the index service at all (no external lookup is performed). -/
theorem find_or_create_cache_hit (indexPre : String) (cfgRoutes : List String)
    (hash : String → String → String) (slug : Nat → String)
    (oracle oracle₂ : String → Except TCError String)
    (t : DLTask) (ip? : Option String) (st : DLShared) (id : String)
    (h : lookupD st.found_or_created_indexed_tasks
      (full_index_path indexPre hash t ip?) = some id) :
    find_or_create indexPre cfgRoutes hash slug oracle t ip? st = (.ok id, t, st) ∧
    find_or_create indexPre cfgRoutes hash slug oracle t ip? st =
      find_or_create indexPre cfgRoutes hash slug oracle₂ t ip? st := by
  have h1 : ∀ o : String → Except TCError String,
      find_or_create indexPre cfgRoutes hash slug o t ip? st = (.ok id, t, st) := by
    intro o
    simp only [find_or_create]
    rw [h]
  exact ⟨h1 oracle, (h1 oracle).trans (h1 oracle₂).symm⟩

/-- Witness for `find_or_create_cache_hit` on a warm cache: the 500-failing
and the 404-failing index services give the same result. -/
theorem find_or_create_cache_hit_witness :
    find_or_create "pfx" [] hashW slugW oracle500 taskW none stHit =
      (.ok "tid-cached", taskW, stHit) ∧
    find_or_create "pfx" [] hashW slugW oracle500 taskW none stHit =
      find_or_create "pfx" [] hashW slugW oracle404 taskW none stHit :=
  find_or_create_cache_hit "pfx" [] hashW slugW oracle500 oracle404 taskW none stHit
    "tid-cached" (by decide)

/-- C2: when a `find_or_create` call misses the process-local cache and the
external index lookup fails: on a not-found signal (status 404) the route
`"index." + index_path` is appended to the task's routes and the task is
then created and scheduled with that route in its queue payload; on any
other failure the error propagates and no task is created — the task and
the whole shared state are left untouched. -/
theorem find_or_create_lookup_failure (indexPre : String) (cfgRoutes : List String)
    (hash : String → String → String) (slug : Nat → String)
    (oracle : String → Except TCError String)
    (t : DLTask) (ip? : Option String) (st : DLShared) (e : TCError)
    (hmiss : lookupD st.found_or_created_indexed_tasks
      (full_index_path indexPre hash t ip?) = none)
    (herr : oracle (full_index_path indexPre hash t ip?) = .error e) :
    (e.status_code = 404 →
      find_or_create indexPre cfgRoutes hash slug oracle t ip? st =
        (.ok (slug st.nextSlug),
          { t with routes :=
              t.routes ++ ["index." ++ full_index_path indexPre hash t ip?] },
          { found_or_created_indexed_tasks :=
              setD st.found_or_created_indexed_tasks
                (full_index_path indexPre hash t ip?) (slug st.nextSlug)
            all_tasks := st.all_tasks ++ [slug st.nextSlug]
            scheduled := st.scheduled ++
              [{ taskId := slug st.nextSlug
                 routes := (t.routes ++
                   ["index." ++ full_index_path indexPre hash t ip?]) ++ cfgRoutes }]
            nextSlug := st.nextSlug + 1 })) ∧
    (e.status_code ≠ 404 →
      find_or_create indexPre cfgRoutes hash slug oracle t ip? st =
        (.error e, t, st)) := by
  constructor
  · intro h404
    simp only [find_or_create]
    rw [hmiss, herr]
    dsimp only
    rw [if_neg (by omega)]
    simp only [DLTask.create]
  · intro hne
    simp only [find_or_create]
    rw [hmiss, herr]
    dsimp only
    rw [if_pos hne]

/-- Witness for `find_or_create_lookup_failure`: a 404 lookup creates the
task with the index route; a 500 lookup propagates and changes nothing. -/
theorem find_or_create_lookup_failure_witness :
    find_or_create "pfx" [] hashW slugW oracle404 taskW none stEmpty =
      (.ok "slug-0",
        { worker_type := "github-worker", payloadJson := "p1"
          routes := ["index.pfx.by-task-definition.github-worker|p1"] },
        { found_or_created_indexed_tasks :=
            [("pfx.by-task-definition.github-worker|p1", "slug-0")]
          all_tasks := ["slug-0"]
          scheduled :=
            [{ taskId := "slug-0"
               routes := ["index.pfx.by-task-definition.github-worker|p1"] }]
          nextSlug := 1 }) ∧
    find_or_create "pfx" [] hashW slugW oracle500 taskW none stEmpty =
      (.error { status_code := 500 }, taskW, stEmpty) :=
  ⟨(find_or_create_lookup_failure "pfx" [] hashW slugW oracle404 taskW none stEmpty
      { status_code := 404 } (by decide) rfl).1 rfl,
   (find_or_create_lookup_failure "pfx" [] hashW slugW oracle500 taskW none stEmpty
      { status_code := 500 } (by decide) rfl).2 (by decide)⟩

/-- A successful `find_or_create` call records its index path in the
process-local cache, mapped to the returned task id. -/
theorem find_or_create_caches (indexPre : String) (cfgRoutes : List String)
    (hash : String → String → String) (slug : Nat → String)
    (oracle : String → Except TCError String)
    (t t' : DLTask) (st st₁ : DLShared) (id : String)
    (h : find_or_create indexPre cfgRoutes hash slug oracle t none st =
      (.ok id, t', st₁)) :
    lookupD st₁.found_or_created_indexed_tasks
      (full_index_path indexPre hash t none) = some id := by
  simp only [find_or_create] at h
  cases hl : lookupD st.found_or_created_indexed_tasks
      (full_index_path indexPre hash t none) with
  | some tid =>
    rw [hl] at h
    cases h
    exact hl
  | none =>
    rw [hl] at h
    cases horacle : oracle (full_index_path indexPre hash t none) with
    | ok tid =>
      rw [horacle] at h
      dsimp only at h
      cases h
      exact lookupD_setD _ _ _
    | error e =>
      rw [horacle] at h
      dsimp only at h
      by_cases h404 : e.status_code ≠ 404
      · rw [if_pos h404] at h
        cases h
      · rw [if_neg h404] at h
        simp only [DLTask.create] at h
        cases h
        exact lookupD_setD _ _ _

/-- C1: the default index path is a pure function of the worker type and the
serialized worker payload, so two calls with the same worker type and
byte-identical payload compute the same path; after a first successful
`find_or_create` the second call in the same run hits the process-local
cache and returns the same task id without touching any state, and a second
call in a separate run (fresh cache) whose index lookup finds the task
registered under that path returns the same id while creating and
scheduling nothing. -/
theorem find_or_create_dedup (indexPre : String) (cfgRoutes : List String)
    (hash : String → String → String) (slug : Nat → String)
    (oracle : String → Except TCError String)
    (t t₂ t' : DLTask) (st st₁ : DLShared) (id : String)
    (hwt : t₂.worker_type = t.worker_type) (hp : t₂.payloadJson = t.payloadJson)
    (h : find_or_create indexPre cfgRoutes hash slug oracle t none st =
      (.ok id, t', st₁)) :
    default_index_path hash t₂ = default_index_path hash t ∧
    find_or_create indexPre cfgRoutes hash slug oracle t₂ none st₁ =
      (.ok id, t₂, st₁) ∧
    (∀ (oracle₂ : String → Except TCError String) (st₀ : DLShared),
      lookupD st₀.found_or_created_indexed_tasks
        (full_index_path indexPre hash t₂ none) = none →
      oracle₂ (full_index_path indexPre hash t₂ none) = .ok id →
      find_or_create indexPre cfgRoutes hash slug oracle₂ t₂ none st₀ =
        (.ok id, t₂,
          { st₀ with
            all_tasks := st₀.all_tasks ++ [id]
            found_or_created_indexed_tasks :=
              setD st₀.found_or_created_indexed_tasks
                (full_index_path indexPre hash t₂ none) id })) := by
  have hpath : full_index_path indexPre hash t₂ none =
      full_index_path indexPre hash t none := by
    simp only [full_index_path, effective_index_path, default_index_path, hwt, hp]
  have hcache := find_or_create_caches indexPre cfgRoutes hash slug oracle
    t t' st st₁ id h
  refine ⟨?_, ?_, ?_⟩
  · simp only [default_index_path, hwt, hp]
  · simp only [find_or_create]
    rw [hpath, hcache]
  · intro oracle₂ st₀ hmiss hfound
    simp only [find_or_create]
    rw [hmiss, hfound]

/-- Witness for `find_or_create_dedup`: a first call against an empty cache
finds the task in the index; the repeat call returns the same id from the
cache, and a fresh-cache call with an index that knows the path returns the
same id. -/
theorem find_or_create_dedup_witness :
    default_index_path hashW taskW = default_index_path hashW taskW ∧
    find_or_create "pfx" [] hashW slugW oracleHit taskW none
        { found_or_created_indexed_tasks :=
            [("pfx.by-task-definition.github-worker|p1", "tid-found")]
          all_tasks := ["tid-found"]
          scheduled := []
          nextSlug := 0 } =
      (.ok "tid-found", taskW,
        { found_or_created_indexed_tasks :=
            [("pfx.by-task-definition.github-worker|p1", "tid-found")]
          all_tasks := ["tid-found"]
          scheduled := []
          nextSlug := 0 }) ∧
    (∀ (oracle₂ : String → Except TCError String) (st₀ : DLShared),
      lookupD st₀.found_or_created_indexed_tasks
        (full_index_path "pfx" hashW taskW none) = none →
      oracle₂ (full_index_path "pfx" hashW taskW none) = .ok "tid-found" →
      find_or_create "pfx" [] hashW slugW oracle₂ taskW none st₀ =
        (.ok "tid-found", taskW,
          { st₀ with
            all_tasks := st₀.all_tasks ++ ["tid-found"]
            found_or_created_indexed_tasks :=
              setD st₀.found_or_created_indexed_tasks
                (full_index_path "pfx" hashW taskW none) "tid-found" })) :=
  find_or_create_dedup "pfx" [] hashW slugW oracleHit taskW taskW taskW stEmpty
    { found_or_created_indexed_tasks :=
        [("pfx.by-task-definition.github-worker|p1", "tid-found")]
      all_tasks := ["tid-found"]
      scheduled := []
      nextSlug := 0 } "tid-found" rfl rfl rfl
